import Mathlib

/-!
Verification development for the MathFish standards-tagging repository.

Shallow embedding of the scoring / reliability / hierarchy core:
* `Benchmark` models `benchmark.py` (code-level mapper, gold-label builder,
  multi-granularity label-set evaluator);
* `Irr` models `irr.py` (its own copy of the code-level mapper and the
  reliability-matrix builder);
* `Annotate` models `annotate.py` (the grade / HS-category hierarchy builder).

Python strings that get split into segments are modelled as `List Char`
(`Code`); item ids, granularity levels and descriptions stay `String`.
Python dicts are modelled as association lists in insertion order, with
`assocFind?` (lookup), `assocSet` (`d[k] = v`: replace in place or append)
and `assocUpdate` (in-place mutation of an existing value).  Python floats
produced by the metrics are modelled as exact rationals `ℚ`; the reliability
matrix cells (`1.0` / `0.0` / `float("nan")`) are modelled by `Irr.Cell`.
-/

namespace MathFish

/-- A standard code such as `"4.NF.B.3a"`, as its list of characters. -/
abbrev Code := List Char

/-- Shorthand turning a string literal into a `Code`. -/
def str (s : String) : Code := s.toList

/-- Python dict lookup `m.get(k)` on an association list. -/
def assocFind? {κ α : Type} [DecidableEq κ] : List (κ × α) → κ → Option α
  | [], _ => none
  | (k, v) :: rest, key => if k = key then some v else assocFind? rest key

/-- Python dict assignment `m[k] = v`: replace the first binding of `k`
in place, else append a new binding (insertion order preserved). -/
def assocSet {κ α : Type} [DecidableEq κ] : List (κ × α) → κ → α → List (κ × α)
  | [], key, val => [(key, val)]
  | (k, v) :: rest, key, val =>
    if k = key then (key, val) :: rest else (k, v) :: assocSet rest key val

/-- In-place mutation of the value bound to `key` (used for
`hierarchy[grade_key]["domains"][eid] = domain`). -/
def assocUpdate {κ α : Type} [DecidableEq κ] (m : List (κ × α)) (key : κ) (f : α → α) :
    List (κ × α) :=
  m.map (fun kv => if kv.1 = key then (kv.1, f kv.2) else kv)

/-- Python `s.split(sep)` for a one-character separator: always returns a
non-empty list of separator-free segments; `"".split(".") = [""]`. -/
def splitOnC (sep : Char) : List Char → List (List Char)
  | [] => [[]]
  | c :: cs =>
    let rest := splitOnC sep cs
    if c = sep then [] :: rest
    else (c :: rest.headI) :: rest.tail

/-- Python `sep.join(parts)` for a one-character separator. -/
def joinOnC (sep : Char) : List (List Char) → List Char
  | [] => []
  | [p] => p
  | p :: q :: ps => p ++ sep :: joinOnC sep (q :: ps)

namespace Benchmark

/-- `benchmark.py` `standard_levels`: split the code on `"."`; the domain is
the first two segments rejoined (or the whole code if fewer), the cluster the
first three (or the domain), the standard the code itself. -/
def standard_levels (code : Code) : Code × Code × Code :=
  let parts := splitOnC '.' code
  let domain := if 2 ≤ parts.length then joinOnC '.' (parts.take 2) else code
  let cluster := if 3 ≤ parts.length then joinOnC '.' (parts.take 3) else domain
  (domain, cluster, code)

/-- The per-code body of `benchmark.py` `map_level`: select the domain,
cluster or standard component according to the granularity string. -/
def mapOne (code : Code) (level : String) : Code :=
  let dcs := standard_levels code
  if level = "domain" then dcs.1
  else if level = "cluster" then dcs.2.1
  else dcs.2.2

/-- `benchmark.py` `map_level`: image of the per-code mapper over a set of
codes (codes collapsing to the same ancestor collapse to one element). -/
def map_level (codes : Finset Code) (level : String) : Finset Code :=
  codes.image (fun code => mapOne code level)

/-- `benchmark.py` `PUBLISHER_RELATIONS`. -/
def PUBLISHER_RELATIONS : Finset String := {"Addressing", "Alignment"}

/-- The per-problem loop body of `build_gold_labels`: collect the codes of
the `(relation, code)` pairs whose relation is a publisher relation. -/
def goldLabels (standards : List (String × Code)) : Finset Code :=
  standards.foldl
    (fun labels rc => if rc.1 ∈ PUBLISHER_RELATIONS then insert rc.2 labels else labels) ∅

/-- `benchmark.py` `build_gold_labels`, over problems carrying their
`standards` list of `(relation, code)` pairs. -/
def build_gold_labels (problems : List (String × List (String × Code))) :
    List (String × Finset Code) :=
  problems.map (fun p => (p.1, goldLabels p.2))

/-- The confusion accumulator of `evaluate` (`tp`, `fp`, `fn`, `exact`,
`total`). -/
structure Counts where
  tp : ℕ
  fp : ℕ
  fn : ℕ
  exact : ℕ
  total : ℕ
deriving DecidableEq, Repr

/-- The loop body of `evaluate` for one gold item: look the item up in the
predictions (default empty set), map both sets to the requested granularity,
and accumulate the confusion counts and the exact-match / total counters. -/
def stepItem (preds : List (String × Finset Code)) (level : String)
    (acc : Counts) (item : String × Finset Code) : Counts :=
  let pred_labels := (assocFind? preds item.1).getD ∅
  let pred_level := map_level pred_labels level
  let gold_level := map_level item.2 level
  { tp := acc.tp + (pred_level ∩ gold_level).card
    fp := acc.fp + (pred_level \ gold_level).card
    fn := acc.fn + (gold_level \ pred_level).card
    exact := acc.exact + (if pred_level = gold_level then 1 else 0)
    total := acc.total + 1 }

/-- The accumulation loop of `evaluate` over the gold items. -/
def evalCounts (preds gold : List (String × Finset Code)) (level : String) : Counts :=
  gold.foldl (stepItem preds level) ⟨0, 0, 0, 0, 0⟩

/-- The metrics record returned by `evaluate`. -/
structure Metrics where
  precision : ℚ
  «recall» : ℚ
  f1 : ℚ
  exact_match : ℚ
  total : ℕ
deriving DecidableEq, Repr

/-- `benchmark.py` `evaluate`: accumulate confusion counts over the gold
items, then form the guarded ratios (`x / y if y else 0.0`). -/
def evaluate (preds gold : List (String × Finset Code)) (level : String) : Metrics :=
  let c := evalCounts preds gold level
  let precision : ℚ := if c.tp + c.fp = 0 then 0 else (c.tp : ℚ) / ((c.tp : ℚ) + (c.fp : ℚ))
  let «recall» : ℚ := if c.tp + c.fn = 0 then 0 else (c.tp : ℚ) / ((c.tp : ℚ) + (c.fn : ℚ))
  let f1 : ℚ :=
    if precision + «recall» = 0 then 0 else 2 * precision * «recall» / (precision + «recall»)
  { precision := precision
    «recall» := «recall»
    f1 := f1
    exact_match := if c.total = 0 then 0 else (c.exact : ℚ) / (c.total : ℚ)
    total := c.total }

end Benchmark

namespace Irr

/-- `irr.py` `standard_levels` (an independent copy of the mapper, written
with conditional expressions). -/
def standard_levels (code : Code) : Code × Code × Code :=
  let parts := splitOnC '.' code
  let domain := if 2 ≤ parts.length then joinOnC '.' (parts.take 2) else code
  let cluster := if 3 ≤ parts.length then joinOnC '.' (parts.take 3) else domain
  (domain, cluster, code)

/-- The per-code body of `irr.py` `map_level`. -/
def mapOne (code : Code) (level : String) : Code :=
  let dcs := standard_levels code
  if level = "domain" then dcs.1
  else if level = "cluster" then dcs.2.1
  else dcs.2.2

/-- `irr.py` `map_level` as the resulting set of mapped codes. -/
def map_level (codes : Finset Code) (level : String) : Finset Code :=
  codes.image (fun code => mapOne code level)

/-- One element of an annotation's `standards` list: either a raw code
string or a dict carrying the code under `"id"`
(`s["id"] if isinstance(s, dict) else s`). -/
inductive StdEntry where
  | raw (code : Code)
  | obj (id : Code)
deriving DecidableEq, Repr

/-- The code extracted from a `standards` element. -/
def stdId : StdEntry → Code
  | .raw c => c
  | .obj i => i

/-- One saved annotation: its `standards` list and its `skipped` flag. -/
structure Annotation where
  standards : List StdEntry
  skipped : Bool
deriving DecidableEq, Repr

/-- The codes of an annotation's `standards` list. -/
def annStandards (a : Annotation) : List Code := a.standards.map stdId

/-- A matrix cell: `1.0` / `0.0` as `num`, `float("nan")` as `nan`. -/
inductive Cell where
  | nan : Cell
  | num (q : ℚ) : Cell
deriving DecidableEq, Repr

/-- The union-discovery pass of `build_reliability_matrix`: the set
`all_standards` of mapped codes over all annotators' non-skipped annotations
of the shared items. -/
def discoveredCodes (annotations : List (String × List (String × Annotation)))
    (shared_ids : List String) (level : String) : Finset Code :=
  annotations.foldl
    (fun acc ann =>
      shared_ids.foldl
        (fun acc2 pid =>
          match assocFind? ann.2 pid with
          | none => acc2
          | some a =>
            if a.skipped then acc2
            else acc2 ∪ map_level (annStandards a).toFinset level)
        acc)
    ∅

/-- `sorted(all_standards)`: the discovered codes in lexicographic order. -/
def sortedCodes (annotations : List (String × List (String × Annotation)))
    (shared_ids : List String) (level : String) : List Code :=
  (discoveredCodes annotations shared_ids level).sort (fun a b => a ≤ b)

/-- The cell emitted for annotator record `ann` at column `(pid, code)`:
missing if the item was never annotated or skipped, else presence of the
code in the annotator's mapped label set for the item. -/
def cellAt (ann : List (String × Annotation)) (level : String)
    (pid : String) (code : Code) : Cell :=
  match assocFind? ann pid with
  | none => Cell.nan
  | some a =>
    if a.skipped then Cell.nan
    else if code ∈ map_level (annStandards a).toFinset level then Cell.num 1 else Cell.num 0

/-- `irr.py` `build_reliability_matrix`: discover the code union, lay the
columns out item-major / code-minor
(`[(pid, code) for pid in shared_ids for code in sorted(all_standards)]`),
and emit one row per annotator. -/
def build_reliability_matrix (annotations : List (String × List (String × Annotation)))
    (shared_ids : List String) (level : String) : List (List Cell) :=
  let sorted := sortedCodes annotations shared_ids level
  let items := shared_ids.flatMap (fun pid => sorted.map (fun code => (pid, code)))
  annotations.map (fun ann => items.map (fun item => cellAt ann.2 level item.1 item.2))

end Irr

namespace Annotate

/-- A taxonomy entry as read from `standards.jsonl` (the fields
`load_standards_hierarchy` uses). -/
structure Entry where
  level : String
  description : String
  children : List Code
  cluster_type : String
deriving DecidableEq, Repr

/-- `annotate.py` `hs_cat_names`: the HS subject-letter → name table. -/
def hs_cat_names : List (Code × String) :=
  [(str "A", "Algebra"), (str "F", "Functions"), (str "G", "Geometry"),
   (str "N", "Number & Quantity"), (str "S", "Statistics & Probability")]

/-- `annotate.py` `hs_order`: the fixed HS subject ordinals. -/
def hs_order : List (Code × ℕ) :=
  [(str "N", 0), (str "A", 1), (str "F", 2), (str "G", 3), (str "S", 4)]

/-- `annotate.py` `grade_names`: `"K"` plus `"1"`..`"8"`. -/
def grade_names : List (Code × String) :=
  (str "K", "Kindergarten") ::
    (List.range 8).map (fun i => (str (toString (i + 1)), "Grade " ++ toString (i + 1)))

/-- Python `int(...)` on the digit strings `"1"`..`"8"` (the only strings it
is applied to: the grade branch is guarded by membership in `grade_names`). -/
def parseNat (s : Code) : ℕ :=
  s.foldl (fun acc c => acc * 10 + (c.toNat - Char.toNat '0')) 0

/-- The grade-bucket derivation inlined in `load_standards_hierarchy`'s
loop: from a Domain code, its `(grade_key, grade_name, sort_key)`. -/
def gradeInfo (eid : Code) : Code × String × ℕ :=
  let first := (splitOnC '.' eid).headI
  if (assocFind? grade_names first).isSome ∨ first = str "K" then
    (first,
     (assocFind? grade_names first).getD ("Grade " ++ String.mk first),
     if first = str "K" then 0 else parseNat first)
  else
    let hs_prefix := (splitOnC '-' eid).headI
    (str "HS-" ++ hs_prefix,
     "HS: " ++ (assocFind? hs_cat_names hs_prefix).getD (String.mk hs_prefix),
     100 + (assocFind? hs_order hs_prefix).getD 9)

/-- A sub-standard node of the hierarchy. -/
structure SubData where
  id : Code
  description : String
deriving DecidableEq, Repr

/-- A standard node of the hierarchy. -/
structure StdData where
  id : Code
  description : String
  sub_standards : List (Code × SubData)
deriving DecidableEq, Repr

/-- A cluster node of the hierarchy. -/
structure ClusterData where
  id : Code
  description : String
  cluster_type : String
  standards : List (Code × StdData)
deriving DecidableEq, Repr

/-- A domain node of the hierarchy. -/
structure DomainData where
  id : Code
  description : String
  clusters : List (Code × ClusterData)
deriving DecidableEq, Repr

/-- A grade / HS-category bucket of the hierarchy. -/
structure GradeBucket where
  name : String
  sort_key : ℕ
  domains : List (Code × DomainData)
deriving DecidableEq, Repr

/-- The standard-level inner loop of `load_standards_hierarchy`: build a
standard node from its children, skipping codes absent from the store. -/
def buildStd (entries : List (Code × Entry)) (std_id : Code) (std : Entry) : StdData :=
  { id := std_id
    description := std.description
    sub_standards :=
      std.children.foldl
        (fun acc sub_id =>
          match assocFind? entries sub_id with
          | none => acc
          | some sub => assocSet acc sub_id { id := sub_id, description := sub.description })
        [] }

/-- The cluster-level loop of `load_standards_hierarchy`. -/
def buildCluster (entries : List (Code × Entry)) (cluster_id : Code) (cluster : Entry) :
    ClusterData :=
  { id := cluster_id
    description := cluster.description
    cluster_type := cluster.cluster_type
    standards :=
      cluster.children.foldl
        (fun acc std_id =>
          match assocFind? entries std_id with
          | none => acc
          | some std => assocSet acc std_id (buildStd entries std_id std))
        [] }

/-- The domain construction of `load_standards_hierarchy`. -/
def buildDomain (entries : List (Code × Entry)) (eid : Code) (entry : Entry) : DomainData :=
  { id := eid
    description := entry.description
    clusters :=
      entry.children.foldl
        (fun acc cluster_id =>
          match assocFind? entries cluster_id with
          | none => acc
          | some cluster => assocSet acc cluster_id (buildCluster entries cluster_id cluster))
        [] }

/-- The per-entry body of `load_standards_hierarchy`'s main loop: skip
non-Domain entries, derive the grade bucket (created lazily on first use),
and store the domain under the bucket. -/
def hierStep (entries : List (Code × Entry)) (hierarchy : List (Code × GradeBucket))
    (pe : Code × Entry) : List (Code × GradeBucket) :=
  if pe.2.level = "Domain" then
    let info := gradeInfo pe.1
    let h1 :=
      if (assocFind? hierarchy info.1).isSome then hierarchy
      else assocSet hierarchy info.1 { name := info.2.1, sort_key := info.2.2, domains := [] }
    assocUpdate h1 info.1
      (fun b => { b with domains := assocSet b.domains pe.1 (buildDomain entries pe.1 pe.2) })
  else hierarchy

/-- `annotate.py` `load_standards_hierarchy`: fold the store's entries
through `hierStep`, starting from the empty hierarchy. -/
def load_standards_hierarchy (entries : List (Code × Entry)) : List (Code × GradeBucket) :=
  entries.foldl (hierStep entries) []

end Annotate

/-! ### Helper lemmas on splitting and joining -/

theorem splitOnC_ne_nil (sep : Char) (l : List Char) : splitOnC sep l ≠ [] := by
  cases l with
  | nil => simp [splitOnC]
  | cons c cs =>
    simp only [splitOnC]
    split <;> simp

theorem headI_splitOnC_mem (sep : Char) (l : List Char) :
    (splitOnC sep l).headI ∈ splitOnC sep l := by
  cases h : splitOnC sep l with
  | nil => exact absurd h (splitOnC_ne_nil sep l)
  | cons q qs => simp

theorem joinOnC_splitOnC (sep : Char) (l : List Char) :
    joinOnC sep (splitOnC sep l) = l := by
  induction l with
  | nil => rfl
  | cons c cs ih =>
    obtain ⟨q, qs, hq⟩ : ∃ q qs, splitOnC sep cs = q :: qs := by
      cases h : splitOnC sep cs with
      | nil => exact absurd h (splitOnC_ne_nil sep cs)
      | cons q qs => exact ⟨q, qs, rfl⟩
    simp only [splitOnC]
    by_cases hc : c = sep
    · rw [if_pos hc, hq]
      simp only [joinOnC, List.nil_append]
      rw [← hq, ih, hc]
    · rw [if_neg hc, hq]
      simp only [List.headI, List.tail]
      cases qs with
      | nil =>
        have : q = cs := by simpa [hq, joinOnC] using ih
        simp [joinOnC, this]
      | cons q2 qs2 =>
        simp only [joinOnC, List.cons_append]
        have : q ++ sep :: joinOnC sep (q2 :: qs2) = cs := by
          simpa [hq, joinOnC] using ih
        rw [this]

theorem splitOnC_sep_notMem (sep : Char) (l : List Char) :
    ∀ p ∈ splitOnC sep l, sep ∉ p := by
  induction l with
  | nil =>
    intro p hp
    simp only [splitOnC, List.mem_singleton] at hp
    subst hp
    simp
  | cons c cs ih =>
    intro p hp
    simp only [splitOnC] at hp
    by_cases hc : c = sep
    · rw [if_pos hc] at hp
      rcases List.mem_cons.mp hp with h | h
      · subst h; simp
      · exact ih p h
    · rw [if_neg hc] at hp
      rcases List.mem_cons.mp hp with h | h
      · subst h
        intro hmem
        rcases List.mem_cons.mp hmem with h2 | h2
        · exact hc h2.symm
        · exact ih _ (headI_splitOnC_mem sep cs) h2
      · exact ih p (List.mem_of_mem_tail h)

theorem splitOnC_of_notMem (sep : Char) (p : List Char) (hp : sep ∉ p) :
    splitOnC sep p = [p] := by
  induction p with
  | nil => rfl
  | cons c cs ih =>
    have hc : c ≠ sep := fun h => hp (by simp [h])
    have hcs : sep ∉ cs := fun h => hp (List.mem_cons_of_mem _ h)
    simp [splitOnC, if_neg hc, ih hcs]

theorem splitOnC_append_sep (sep : Char) (p t : List Char) (hp : sep ∉ p) :
    splitOnC sep (p ++ sep :: t) = p :: splitOnC sep t := by
  induction p with
  | nil => simp [splitOnC]
  | cons c cs ih =>
    have hc : c ≠ sep := fun h => hp (by simp [h])
    have hcs : sep ∉ cs := fun h => hp (List.mem_cons_of_mem _ h)
    simp [List.cons_append, splitOnC, if_neg hc, ih hcs]

theorem splitOnC_joinOnC (sep : Char) (ps : List (List Char)) :
    ps ≠ [] → (∀ p ∈ ps, sep ∉ p) → splitOnC sep (joinOnC sep ps) = ps := by
  induction ps with
  | nil => intro hne _; exact absurd rfl hne
  | cons p qs ih =>
    intro _ hfree
    cases qs with
    | nil => simpa [joinOnC] using splitOnC_of_notMem sep p (hfree p (by simp))
    | cons q qs2 =>
      simp only [joinOnC]
      rw [splitOnC_append_sep sep p _ (hfree p (by simp)),
        ih (by simp) (fun r hr => hfree r (List.mem_cons_of_mem _ hr))]

/-! ### The code-level mapper: identity and composition -/

theorem Benchmark.mapOne_standard (c : Code) : Benchmark.mapOne c "standard" = c := by
  simp [Benchmark.mapOne, Benchmark.standard_levels]

theorem Benchmark.mapOne_cluster (c : Code) :
    Benchmark.mapOne c "cluster" = (Benchmark.standard_levels c).2.1 := by
  simp [Benchmark.mapOne]

theorem Benchmark.mapOne_domain (c : Code) :
    Benchmark.mapOne c "domain" = (Benchmark.standard_levels c).1 := by
  simp [Benchmark.mapOne]

theorem Benchmark.standard_levels_compose (c : Code) :
    (Benchmark.standard_levels (Benchmark.standard_levels c).2.1).1 =
      (Benchmark.standard_levels c).1 := by
  by_cases h3 : 3 ≤ (splitOnC '.' c).length
  · have h2 : 2 ≤ (splitOnC '.' c).length := le_trans (by omega) h3
    have htake : splitOnC '.' (joinOnC '.' ((splitOnC '.' c).take 3)) =
        (splitOnC '.' c).take 3 := by
      refine splitOnC_joinOnC '.' _ ?_ ?_
      · have : ((splitOnC '.' c).take 3).length = 3 := by
          rw [List.length_take]
          omega
        intro hnil
        rw [hnil] at this
        simp at this
      · intro p hp
        exact splitOnC_sep_notMem '.' c p (List.take_subset _ _ hp)
    have hlen3 : ((splitOnC '.' c).take 3).length = 3 := by
      rw [List.length_take]; omega
    simp only [Benchmark.standard_levels, if_pos h3, if_pos h2]
    rw [htake, hlen3, if_pos (by omega : (2 : ℕ) ≤ 3), List.take_take,
      show (2 ⊓ 3 : ℕ) = 2 from rfl]
  · by_cases h2 : 2 ≤ (splitOnC '.' c).length
    · -- exactly two segments: the domain is the whole code again
      have hlen : (splitOnC '.' c).length = 2 := by omega
      have hall : (splitOnC '.' c).take 2 = splitOnC '.' c :=
        List.take_of_length_le (le_of_eq hlen)
      have hc : (Benchmark.standard_levels c).2.1 = c := by
        simp only [Benchmark.standard_levels, if_neg h3, if_pos h2]
        rw [hall, joinOnC_splitOnC]
      rw [hc]
    · have hc : (Benchmark.standard_levels c).2.1 = c := by
        simp only [Benchmark.standard_levels, if_neg h3, if_neg h2]
      rw [hc]

/-- Claim C2: mapping a code at the `"standard"` granularity is the
identity, in both copies of the mapper (`benchmark.py` and `irr.py`):
`map_level({c}, "standard") = {c}`. -/
theorem C2_standard_identity (c : Code) :
    Benchmark.map_level {c} "standard" = {c} ∧ Irr.map_level {c} "standard" = {c} := by
  constructor
  · rw [Benchmark.map_level, Finset.image_singleton, Benchmark.mapOne_standard]
  · rw [Irr.map_level, Finset.image_singleton]
    have : Irr.mapOne c "standard" = c := by
      simp [Irr.mapOne, Irr.standard_levels]
    rw [this]

/-- Claim C3: coarsening composes: taking the cluster-level ancestor and
then the domain-level ancestor of the result equals taking the domain-level
ancestor directly, for every dot-or-dash-segmented code string. -/
theorem C3_coarsen_compose (c : Code) :
    Benchmark.mapOne (Benchmark.mapOne c "cluster") "domain" =
      Benchmark.mapOne c "domain" := by
  rw [Benchmark.mapOne_cluster, Benchmark.mapOne_domain, Benchmark.mapOne_domain]
  exact Benchmark.standard_levels_compose c

/-- Claim C10: the two independent copies of the code-level mapper,
`standard_levels` in `benchmark.py` and in `irr.py`, are extensionally
equal, and so are the two `map_level` set mappers built on them. -/
theorem C10_mappers_agree :
    (∀ c : Code, Benchmark.standard_levels c = Irr.standard_levels c) ∧
      (∀ (codes : Finset Code) (level : String),
        Benchmark.map_level codes level = Irr.map_level codes level) :=
  ⟨fun _ => rfl, fun _ _ => rfl⟩

/-- Claim C1: on gold `{"p1": {"4.NF.B.3a"}}` and predictions
`{"p1": {"4.NF.B.3"}}`, the `"standard"` level accumulates
`tp=0, fp=1, fn=1` (precision 0, recall 0) while the `"cluster"` level maps
both codes to `"4.NF.B"` and accumulates `tp=1, fp=0, fn=0`, giving
precision = recall = f1 = exact_match = 1: codes are collapsed to their
ancestor before the set-difference counts are taken. -/
theorem C1_collapse_before_counting :
    Benchmark.evalCounts [("p1", {str "4.NF.B.3"})] [("p1", {str "4.NF.B.3a"})]
        "standard" = ⟨0, 1, 1, 0, 1⟩ ∧
      (Benchmark.evaluate [("p1", {str "4.NF.B.3"})] [("p1", {str "4.NF.B.3a"})]
          "standard").precision = 0 ∧
      (Benchmark.evaluate [("p1", {str "4.NF.B.3"})] [("p1", {str "4.NF.B.3a"})]
          "standard").«recall» = 0 ∧
      Benchmark.mapOne (str "4.NF.B.3a") "cluster" = str "4.NF.B" ∧
      Benchmark.mapOne (str "4.NF.B.3") "cluster" = str "4.NF.B" ∧
      Benchmark.evalCounts [("p1", {str "4.NF.B.3"})] [("p1", {str "4.NF.B.3a"})]
        "cluster" = ⟨1, 0, 0, 1, 1⟩ ∧
      Benchmark.evaluate [("p1", {str "4.NF.B.3"})] [("p1", {str "4.NF.B.3a"})]
        "cluster" = ⟨1, 1, 1, 1, 1⟩ := by
  have hstd : Benchmark.evalCounts [("p1", {str "4.NF.B.3"})]
      [("p1", {str "4.NF.B.3a"})] "standard" = ⟨0, 1, 1, 0, 1⟩ := by decide
  have hclu : Benchmark.evalCounts [("p1", {str "4.NF.B.3"})]
      [("p1", {str "4.NF.B.3a"})] "cluster" = ⟨1, 0, 0, 1, 1⟩ := by decide
  refine ⟨hstd, ?_, ?_, by decide, by decide, hclu, ?_⟩
  · simp [Benchmark.evaluate, hstd]
  · simp [Benchmark.evaluate, hstd]
  · simp [Benchmark.evaluate, hclu, Benchmark.Metrics.mk.injEq]
    norm_num

/-! ### Association-list lemmas -/

theorem assocFind?_eq_none_iff {κ α : Type} [DecidableEq κ] (m : List (κ × α)) (k : κ) :
    assocFind? m k = none ↔ k ∉ m.map Prod.fst := by
  induction m with
  | nil => simp [assocFind?]
  | cons kv rest ih =>
    simp only [assocFind?, List.map_cons, List.mem_cons]
    by_cases h : kv.1 = k
    · simp [if_pos h, h]
    · simp only [if_neg h, ih]
      constructor
      · intro hn hor
        rcases hor with h1 | h1
        · exact h h1.symm
        · exact hn h1
      · intro hn
        exact fun hm => hn (Or.inr hm)

theorem assocFind?_of_mem_nodup {κ α : Type} [DecidableEq κ] (m : List (κ × α))
    (k : κ) (v : α) (hnd : (m.map Prod.fst).Nodup) (hmem : (k, v) ∈ m) :
    assocFind? m k = some v := by
  induction m with
  | nil => simp at hmem
  | cons kv rest ih =>
    simp only [List.map_cons, List.nodup_cons] at hnd
    rcases List.mem_cons.mp hmem with h | h
    · simp [assocFind?, ← h]
    · have hk : kv.1 ≠ k := by
        intro he
        exact hnd.1 (he ▸ List.mem_map_of_mem Prod.fst h)
      simp only [assocFind?, if_neg hk]
      exact ih hnd.2 h

theorem assocFind?_cons_ne {κ α : Type} [DecidableEq κ] (m : List (κ × α))
    (k k2 : κ) (v : α) (h : k ≠ k2) :
    assocFind? ((k, v) :: m) k2 = assocFind? m k2 := by
  simp [assocFind?, if_neg h]

/-! ### Evaluator accumulation lemmas -/

theorem Benchmark.foldl_stepItem_total (preds : List (String × Finset Code))
    (level : String) (gold : List (String × Finset Code)) (acc : Benchmark.Counts) :
    (gold.foldl (Benchmark.stepItem preds level) acc).total = acc.total + gold.length := by
  induction gold generalizing acc with
  | nil => simp
  | cons it rest ih =>
    rw [List.foldl_cons, ih]
    simp [Benchmark.stepItem]
    omega

theorem Benchmark.stepItem_not_predicted (preds : List (String × Finset Code))
    (level : String) (acc : Benchmark.Counts) (item : String × Finset Code)
    (h : assocFind? preds item.1 = none) :
    Benchmark.stepItem preds level acc item =
      ⟨acc.tp, acc.fp, acc.fn + (Benchmark.map_level item.2 level).card,
        acc.exact + (if item.2 = ∅ then 1 else 0), acc.total + 1⟩ := by
  have hcond : ((∅ : Finset Code) = Benchmark.map_level item.2 level) ↔ (item.2 = ∅) := by
    rw [eq_comm, Benchmark.map_level, Finset.image_eq_empty]
  simp only [Benchmark.stepItem, h, Option.getD_none]
  rw [show Benchmark.map_level ∅ level = ∅ from Finset.image_empty _]
  simp [hcond]

theorem Benchmark.stepItem_self (preds : List (String × Finset Code))
    (level : String) (acc : Benchmark.Counts) (item : String × Finset Code)
    (h : assocFind? preds item.1 = some item.2) :
    Benchmark.stepItem preds level acc item =
      ⟨acc.tp + (Benchmark.map_level item.2 level).card, acc.fp, acc.fn,
        acc.exact + 1, acc.total + 1⟩ := by
  simp [Benchmark.stepItem, h]

theorem Benchmark.stepItem_cons_irrelevant (preds : List (String × Finset Code))
    (level : String) (acc : Benchmark.Counts) (item : String × Finset Code)
    (pid : String) (s : Finset Code) (h : item.1 ≠ pid) :
    Benchmark.stepItem ((pid, s) :: preds) level acc item =
      Benchmark.stepItem preds level acc item := by
  simp only [Benchmark.stepItem, assocFind?_cons_ne preds pid item.1 s (Ne.symm h)]

theorem Benchmark.foldl_stepItem_cons_irrelevant (preds : List (String × Finset Code))
    (level : String) (gold : List (String × Finset Code)) (pid : String) (s : Finset Code)
    (h : ∀ it ∈ gold, it.1 ≠ pid) (acc : Benchmark.Counts) :
    gold.foldl (Benchmark.stepItem ((pid, s) :: preds) level) acc =
      gold.foldl (Benchmark.stepItem preds level) acc := by
  induction gold generalizing acc with
  | nil => rfl
  | cons it rest ih =>
    rw [List.foldl_cons, List.foldl_cons,
      Benchmark.stepItem_cons_irrelevant preds level acc it pid s (h it (by simp))]
    exact ih (fun x hx => h x (List.mem_cons_of_mem _ hx)) _

theorem Benchmark.foldl_stepItem_empty (level : String)
    (gold : List (String × Finset Code)) (acc : Benchmark.Counts) :
    gold.foldl (Benchmark.stepItem [] level) acc =
      ⟨acc.tp, acc.fp,
        acc.fn + (gold.map (fun it => (Benchmark.map_level it.2 level).card)).sum,
        acc.exact + (gold.filter (fun it => it.2 = ∅)).length,
        acc.total + gold.length⟩ := by
  induction gold generalizing acc with
  | nil => simp
  | cons it rest ih =>
    rw [List.foldl_cons,
      Benchmark.stepItem_not_predicted [] level acc it ((assocFind?_eq_none_iff [] it.1).mpr (by simp)),
      ih]
    by_cases he : it.2 = ∅
    · rw [List.filter_cons_of_pos (by simp [he]), if_pos he]
      simp only [List.map_cons, List.sum_cons, List.length_cons]
      congr 1 <;> omega
    · rw [List.filter_cons_of_neg (by simp [he]), if_neg he]
      simp only [List.map_cons, List.sum_cons, List.length_cons]
      congr 1 <;> omega

theorem Benchmark.foldl_stepItem_self (preds : List (String × Finset Code))
    (level : String) (gold : List (String × Finset Code))
    (h : ∀ it ∈ gold, assocFind? preds it.1 = some it.2) (acc : Benchmark.Counts) :
    gold.foldl (Benchmark.stepItem preds level) acc =
      ⟨acc.tp + (gold.map (fun it => (Benchmark.map_level it.2 level).card)).sum,
        acc.fp, acc.fn, acc.exact + gold.length, acc.total + gold.length⟩ := by
  induction gold generalizing acc with
  | nil => simp
  | cons it rest ih =>
    rw [List.foldl_cons, Benchmark.stepItem_self preds level acc it (h it (by simp)),
      ih (fun x hx => h x (List.mem_cons_of_mem _ hx))]
    simp only [List.map_cons, List.sum_cons, List.length_cons]
    congr 1 <;> omega

/-- Claim C4: `evaluate` iterates over exactly the gold items: the total is
the number of gold keys; a gold item absent from the predictions is scored
against the empty prediction set (accumulating its mapped gold set into
`fn`, counting exact only for an empty gold set, and still counting into
`total`); a prediction entry whose id is not a gold key changes nothing;
and the gold set built by `build_gold_labels` contains exactly the codes
whose relation is `"Addressing"` or `"Alignment"`. -/
theorem C4_gold_universe :
    (∀ (preds gold : List (String × Finset Code)) (level : String),
        (Benchmark.evalCounts preds gold level).total = gold.length) ∧
      (∀ (preds : List (String × Finset Code)) (level : String)
          (acc : Benchmark.Counts) (pid : String) (s : Finset Code),
          pid ∉ preds.map Prod.fst →
          Benchmark.stepItem preds level acc (pid, s) =
            ⟨acc.tp, acc.fp, acc.fn + (Benchmark.map_level s level).card,
              acc.exact + (if s = ∅ then 1 else 0), acc.total + 1⟩) ∧
      (∀ (preds gold : List (String × Finset Code)) (level : String)
          (pid : String) (s : Finset Code),
          pid ∉ gold.map Prod.fst →
          Benchmark.evaluate ((pid, s) :: preds) gold level =
            Benchmark.evaluate preds gold level) ∧
      (∀ (standards : List (String × Code)) (c : Code),
          c ∈ Benchmark.goldLabels standards ↔
            ∃ rel, (rel, c) ∈ standards ∧ rel ∈ Benchmark.PUBLISHER_RELATIONS) := by
  refine ⟨?_, ?_, ?_, ?_⟩
  · intro preds gold level
    rw [Benchmark.evalCounts, Benchmark.foldl_stepItem_total]
    simp
  · intro preds level acc pid s h
    exact Benchmark.stepItem_not_predicted preds level acc (pid, s)
      ((assocFind?_eq_none_iff preds pid).mpr h)
  · intro preds gold level pid s h
    have : Benchmark.evalCounts ((pid, s) :: preds) gold level =
        Benchmark.evalCounts preds gold level := by
      rw [Benchmark.evalCounts, Benchmark.evalCounts]
      refine Benchmark.foldl_stepItem_cons_irrelevant preds level gold pid s ?_ _
      intro it hit he
      exact h (he ▸ List.mem_map_of_mem Prod.fst hit)
    rw [Benchmark.evaluate, Benchmark.evaluate, this]
  · intro standards c
    rw [Benchmark.goldLabels]
    have key : ∀ (l : List (String × Code)) (init : Finset Code),
        c ∈ l.foldl (fun labels rc =>
            if rc.1 ∈ Benchmark.PUBLISHER_RELATIONS then insert rc.2 labels else labels) init ↔
          c ∈ init ∨ ∃ rel, (rel, c) ∈ l ∧ rel ∈ Benchmark.PUBLISHER_RELATIONS := by
      intro l
      induction l with
      | nil => simp
      | cons rc rest ih =>
        intro init
        rw [List.foldl_cons]
        by_cases hrel : rc.1 ∈ Benchmark.PUBLISHER_RELATIONS
        · rw [if_pos hrel, ih]
          constructor
          · rintro (hc | ⟨rel, hmem, hr⟩)
            · rcases Finset.mem_insert.mp hc with hc | hc
              · refine Or.inr ⟨rc.1, List.mem_cons.mpr (Or.inl ?_), hrel⟩
                rw [hc]
              · exact Or.inl hc
            · exact Or.inr ⟨rel, List.mem_cons_of_mem _ hmem, hr⟩
          · rintro (hc | ⟨rel, hmem, hr⟩)
            · exact Or.inl (Finset.mem_insert_of_mem hc)
            · rcases List.mem_cons.mp hmem with he | he
              · exact Or.inl (Finset.mem_insert.mpr (Or.inl (congrArg Prod.snd he)))
              · exact Or.inr ⟨rel, he, hr⟩
        · rw [if_neg hrel, ih]
          constructor
          · rintro (hc | ⟨rel, hmem, hr⟩)
            · exact Or.inl hc
            · exact Or.inr ⟨rel, List.mem_cons_of_mem _ hmem, hr⟩
          · rintro (hc | ⟨rel, hmem, hr⟩)
            · exact Or.inl hc
            · rcases List.mem_cons.mp hmem with he | he
              · exact absurd hr (by rw [← he] at hrel; exact hrel)
              · exact Or.inr ⟨rel, he, hr⟩
    rw [key]
    simp

/-- Witness for C4 at concrete inputs. -/
theorem C4_gold_universe_witness :
    (Benchmark.evalCounts [] [("p1", (∅ : Finset Code))] "standard").total =
        [("p1", (∅ : Finset Code))].length ∧
      Benchmark.stepItem [] "standard" ⟨0, 0, 0, 0, 0⟩ ("p2", {str "4.NF.B.3"}) =
        ⟨0, 0, (Benchmark.map_level {str "4.NF.B.3"} "standard").card,
          (if ({str "4.NF.B.3"} : Finset Code) = ∅ then 1 else 0), 1⟩ ∧
      Benchmark.evaluate [("p2", {str "4.NF.B.3"})] [("p1", (∅ : Finset Code))] "standard" =
        Benchmark.evaluate [] [("p1", (∅ : Finset Code))] "standard" ∧
      ((str "4.NF.B.3a") ∈ Benchmark.goldLabels [("Addressing", str "4.NF.B.3a")] ↔
        ∃ rel, (rel, str "4.NF.B.3a") ∈ [("Addressing", str "4.NF.B.3a")] ∧
          rel ∈ Benchmark.PUBLISHER_RELATIONS) := by
  refine ⟨C4_gold_universe.1 [] [("p1", ∅)] "standard",
    ?_, ?_, C4_gold_universe.2.2.2 [("Addressing", str "4.NF.B.3a")] (str "4.NF.B.3a")⟩
  · exact C4_gold_universe.2.1 [] "standard" ⟨0, 0, 0, 0, 0⟩ "p2" {str "4.NF.B.3"}
      (by simp)
  · exact C4_gold_universe.2.2.1 [] [("p1", ∅)] "standard" "p2" {str "4.NF.B.3"}
      (by simp)

/-! ### Projection lemmas for `evaluate` -/

theorem Benchmark.evaluate_precision (preds gold : List (String × Finset Code))
    (level : String) :
    (Benchmark.evaluate preds gold level).precision =
      if (Benchmark.evalCounts preds gold level).tp +
          (Benchmark.evalCounts preds gold level).fp = 0 then 0
      else ((Benchmark.evalCounts preds gold level).tp : ℚ) /
        (((Benchmark.evalCounts preds gold level).tp : ℚ) +
          ((Benchmark.evalCounts preds gold level).fp : ℚ)) := rfl

theorem Benchmark.evaluate_recall (preds gold : List (String × Finset Code))
    (level : String) :
    (Benchmark.evaluate preds gold level).«recall» =
      if (Benchmark.evalCounts preds gold level).tp +
          (Benchmark.evalCounts preds gold level).fn = 0 then 0
      else ((Benchmark.evalCounts preds gold level).tp : ℚ) /
        (((Benchmark.evalCounts preds gold level).tp : ℚ) +
          ((Benchmark.evalCounts preds gold level).fn : ℚ)) := rfl

theorem Benchmark.evaluate_f1 (preds gold : List (String × Finset Code))
    (level : String) :
    (Benchmark.evaluate preds gold level).f1 =
      if (Benchmark.evaluate preds gold level).precision +
          (Benchmark.evaluate preds gold level).«recall» = 0 then 0
      else 2 * (Benchmark.evaluate preds gold level).precision *
          (Benchmark.evaluate preds gold level).«recall» /
        ((Benchmark.evaluate preds gold level).precision +
          (Benchmark.evaluate preds gold level).«recall») := rfl

theorem Benchmark.evaluate_exact_match (preds gold : List (String × Finset Code))
    (level : String) :
    (Benchmark.evaluate preds gold level).exact_match =
      if (Benchmark.evalCounts preds gold level).total = 0 then 0
      else ((Benchmark.evalCounts preds gold level).exact : ℚ) /
        ((Benchmark.evalCounts preds gold level).total : ℚ) := rfl

theorem Benchmark.evaluate_total (preds gold : List (String × Finset Code))
    (level : String) :
    (Benchmark.evaluate preds gold level).total =
      (Benchmark.evalCounts preds gold level).total := rfl

theorem Benchmark.precision_of_counts {preds gold : List (String × Finset Code)}
    {level : String} {tp fp fn ex tot : ℕ}
    (hc : Benchmark.evalCounts preds gold level = ⟨tp, fp, fn, ex, tot⟩) :
    (Benchmark.evaluate preds gold level).precision =
      if tp + fp = 0 then 0 else (tp : ℚ) / ((tp : ℚ) + (fp : ℚ)) := by
  rw [Benchmark.evaluate_precision, hc]

theorem Benchmark.recall_of_counts {preds gold : List (String × Finset Code)}
    {level : String} {tp fp fn ex tot : ℕ}
    (hc : Benchmark.evalCounts preds gold level = ⟨tp, fp, fn, ex, tot⟩) :
    (Benchmark.evaluate preds gold level).«recall» =
      if tp + fn = 0 then 0 else (tp : ℚ) / ((tp : ℚ) + (fn : ℚ)) := by
  rw [Benchmark.evaluate_recall, hc]

theorem Benchmark.exact_match_of_counts {preds gold : List (String × Finset Code)}
    {level : String} {tp fp fn ex tot : ℕ}
    (hc : Benchmark.evalCounts preds gold level = ⟨tp, fp, fn, ex, tot⟩) :
    (Benchmark.evaluate preds gold level).exact_match =
      if tot = 0 then 0 else (ex : ℚ) / (tot : ℚ) := by
  rw [Benchmark.evaluate_exact_match, hc]

/-- Claim C6: evaluating an empty predictions mapping against a non-empty
gold mapping yields precision 0 (the guard fires, no division error),
recall 0, f1 0, and exact_match equal to the fraction of gold items whose
gold label set is empty; and, in general, every guarded ratio of `evaluate`
yields 0 whenever its denominator is zero. -/
theorem C6_empty_preds (gold : List (String × Finset Code)) (level : String)
    (h : gold ≠ []) :
    ((Benchmark.evaluate [] gold level).precision = 0 ∧
      (Benchmark.evaluate [] gold level).«recall» = 0 ∧
      (Benchmark.evaluate [] gold level).f1 = 0 ∧
      (Benchmark.evaluate [] gold level).exact_match =
        ((gold.filter (fun it => it.2 = ∅)).length : ℚ) / (gold.length : ℚ)) ∧
    (∀ (preds gold2 : List (String × Finset Code)) (lv : String),
      ((Benchmark.evalCounts preds gold2 lv).tp +
          (Benchmark.evalCounts preds gold2 lv).fp = 0 →
        (Benchmark.evaluate preds gold2 lv).precision = 0) ∧
      ((Benchmark.evalCounts preds gold2 lv).tp +
          (Benchmark.evalCounts preds gold2 lv).fn = 0 →
        (Benchmark.evaluate preds gold2 lv).«recall» = 0) ∧
      ((Benchmark.evaluate preds gold2 lv).precision +
          (Benchmark.evaluate preds gold2 lv).«recall» = 0 →
        (Benchmark.evaluate preds gold2 lv).f1 = 0) ∧
      ((Benchmark.evalCounts preds gold2 lv).total = 0 →
        (Benchmark.evaluate preds gold2 lv).exact_match = 0)) := by
  have hc : Benchmark.evalCounts [] gold level =
      ⟨0, 0, (gold.map (fun it => (Benchmark.map_level it.2 level).card)).sum,
        (gold.filter (fun it => it.2 = ∅)).length, gold.length⟩ := by
    rw [Benchmark.evalCounts, Benchmark.foldl_stepItem_empty]
    simp
  have hlen : gold.length ≠ 0 := fun h0 => h (List.length_eq_zero.mp h0)
  have hP : (Benchmark.evaluate [] gold level).precision = 0 := by
    rw [Benchmark.evaluate_precision, hc]
    simp
  have hR : (Benchmark.evaluate [] gold level).«recall» = 0 := by
    rw [Benchmark.evaluate_recall, hc]
    simp
  refine ⟨⟨hP, hR, ?_, ?_⟩, ?_⟩
  · rw [Benchmark.evaluate_f1, hP, hR]
    simp
  · rw [Benchmark.evaluate_exact_match, hc]
    simp [hlen]
  · intro preds gold2 lv
    refine ⟨?_, ?_, ?_, ?_⟩
    · intro h0
      rw [Benchmark.evaluate_precision, if_pos h0]
    · intro h0
      rw [Benchmark.evaluate_recall, if_pos h0]
    · intro h0
      rw [Benchmark.evaluate_f1, if_pos h0]
    · intro h0
      rw [Benchmark.evaluate_exact_match, if_pos h0]

/-- Witness for C6 at a concrete non-empty gold mapping. -/
theorem C6_empty_preds_witness :
    (Benchmark.evaluate [] [("p1", (∅ : Finset Code))] "standard").precision = 0 ∧
      (Benchmark.evaluate [] [("p1", (∅ : Finset Code))] "standard").exact_match =
        (([(("p1" : String), (∅ : Finset Code))].filter
            (fun it => it.2 = ∅)).length : ℚ) /
          (([(("p1" : String), (∅ : Finset Code))].length : ℚ)) :=
  ⟨(C6_empty_preds [("p1", ∅)] "standard" (by simp)).1.1,
    (C6_empty_preds [("p1", ∅)] "standard" (by simp)).1.2.2.2⟩

/-- Counterexample to claim C5 as stated: the predictions mapping
`{"p1": ∅}` is non-empty, yet evaluating it against itself yields
precision 0 (the tp+fp guard fires), not 1. -/
theorem C5_self_eval_counterexample :
    ([(("p1" : String), (∅ : Finset Code))] ≠ []) ∧
      ¬((Benchmark.evaluate [("p1", (∅ : Finset Code))] [("p1", ∅)] "standard").precision = 1 ∧
        (Benchmark.evaluate [("p1", (∅ : Finset Code))] [("p1", ∅)] "standard").«recall» = 1 ∧
        (Benchmark.evaluate [("p1", (∅ : Finset Code))] [("p1", ∅)] "standard").f1 = 1 ∧
        (Benchmark.evaluate [("p1", (∅ : Finset Code))] [("p1", ∅)] "standard").exact_match = 1) := by
  have hc : Benchmark.evalCounts [("p1", (∅ : Finset Code))] [("p1", ∅)] "standard" =
      ⟨0, 0, 0, 1, 1⟩ := by decide
  refine ⟨by simp, fun hcl => ?_⟩
  have h1 := hcl.1
  rw [Benchmark.evaluate_precision, hc] at h1
  norm_num at h1

/-- Claim C5, amended: evaluating a non-empty predictions mapping (with
distinct keys, as a Python dict has) against itself yields
exact_match = 1 and total = its size always, and precision = recall =
f1 = 1 provided at least one item's label set is non-empty (with all label
sets empty the code's tp+fp = 0 guard yields precision = recall = f1 = 0
instead). -/
theorem C5_self_eval_amended (preds : List (String × Finset Code)) (level : String)
    (hnd : (preds.map Prod.fst).Nodup) (hne : preds ≠ []) :
    (Benchmark.evaluate preds preds level).exact_match = 1 ∧
      (Benchmark.evaluate preds preds level).total = preds.length ∧
      ((∃ it ∈ preds, it.2 ≠ ∅) →
        (Benchmark.evaluate preds preds level).precision = 1 ∧
          (Benchmark.evaluate preds preds level).«recall» = 1 ∧
          (Benchmark.evaluate preds preds level).f1 = 1) := by
  have hlook : ∀ it ∈ preds, assocFind? preds it.1 = some it.2 := by
    intro it hit
    refine assocFind?_of_mem_nodup preds it.1 it.2 hnd ?_
    rw [Prod.mk.eta]
    exact hit
  have hc : Benchmark.evalCounts preds preds level =
      ⟨(preds.map (fun it => (Benchmark.map_level it.2 level).card)).sum, 0, 0,
        preds.length, preds.length⟩ := by
    rw [Benchmark.evalCounts, Benchmark.foldl_stepItem_self preds level preds hlook]
    simp
  have hlen : preds.length ≠ 0 := fun h0 => hne (List.length_eq_zero.mp h0)
  have hEM : (Benchmark.evaluate preds preds level).exact_match = 1 := by
    rw [Benchmark.exact_match_of_counts hc, if_neg hlen,
      div_self (Nat.cast_ne_zero.mpr hlen)]
  refine ⟨hEM, ?_, ?_⟩
  · rw [Benchmark.evaluate_total, hc]
  · rintro ⟨it, hit, hits⟩
    have hT : (preds.map (fun it => (Benchmark.map_level it.2 level).card)).sum ≠ 0 := by
      intro h0
      have hall := List.sum_eq_zero_iff.mp h0
      have hmem : (Benchmark.map_level it.2 level).card ∈
          preds.map (fun it => (Benchmark.map_level it.2 level).card) :=
        List.mem_map_of_mem _ hit
      have hzero := hall _ hmem
      have hpos : 0 < (Benchmark.map_level it.2 level).card := by
        refine Finset.card_pos.mpr ?_
        exact Finset.image_nonempty.mpr (Finset.nonempty_iff_ne_empty.mpr hits)
      omega
    have hP : (Benchmark.evaluate preds preds level).precision = 1 := by
      rw [Benchmark.precision_of_counts hc, if_neg (by omega), Nat.cast_zero,
        add_zero, div_self (Nat.cast_ne_zero.mpr hT)]
    have hR : (Benchmark.evaluate preds preds level).«recall» = 1 := by
      rw [Benchmark.recall_of_counts hc, if_neg (by omega), Nat.cast_zero,
        add_zero, div_self (Nat.cast_ne_zero.mpr hT)]
    refine ⟨hP, hR, ?_⟩
    rw [Benchmark.evaluate_f1, hP, hR]
    norm_num

/-- Witness for the amended C5 at a concrete input with one non-empty
label set. -/
theorem C5_self_eval_witness :
    (Benchmark.evaluate [("p1", ({str "4.NF.B.3"} : Finset Code))]
        [("p1", {str "4.NF.B.3"})] "cluster").exact_match = 1 ∧
      (Benchmark.evaluate [("p1", ({str "4.NF.B.3"} : Finset Code))]
        [("p1", {str "4.NF.B.3"})] "cluster").precision = 1 := by
  have h := C5_self_eval_amended [("p1", {str "4.NF.B.3"})] "cluster"
    (by simp) (by simp)
  exact ⟨h.1, (h.2.2 ⟨("p1", {str "4.NF.B.3"}), by simp, by simp⟩).1⟩

/-! ### Reliability-matrix indexing lemmas -/

theorem length_flatMap_map {α β γ : Type} (outer : List α) (inner : List β)
    (f : α → β → γ) :
    (outer.flatMap (fun x => inner.map (f x))).length = outer.length * inner.length := by
  induction outer with
  | nil => simp
  | cons x rest ih =>
    rw [List.flatMap_cons, List.length_append, List.length_map, ih, List.length_cons,
      Nat.succ_mul]
    omega

theorem flatMap_map_getElem? {α β γ : Type} (outer : List α) (inner : List β)
    (f : α → β → γ) (j : ℕ) (a : α) (b : β)
    (ha : outer[j / inner.length]? = some a)
    (hb : inner[j % inner.length]? = some b) :
    (outer.flatMap (fun x => inner.map (f x)))[j]? = some (f a b) := by
  induction outer generalizing j with
  | nil => simp at ha
  | cons x rest ih =>
    have hK : 0 < inner.length := by
      by_contra hc
      have h0 : inner.length = 0 := by omega
      rw [List.length_eq_zero.mp h0] at hb
      simp at hb
    rw [List.flatMap_cons, List.getElem?_append]
    by_cases hj : j < inner.length
    · rw [Nat.div_eq_of_lt hj] at ha
      rw [Nat.mod_eq_of_lt hj] at hb
      rw [List.getElem?_cons_zero, Option.some.injEq] at ha
      rw [if_pos (by rw [List.length_map]; exact hj), List.getElem?_map, hb, ha]
      rfl
    · push_neg at hj
      have hdiv : j / inner.length = (j - inner.length) / inner.length + 1 :=
        Nat.div_eq_sub_div hK hj
      have hmod : j % inner.length = (j - inner.length) % inner.length :=
        Nat.mod_eq_sub_mod hj
      rw [hdiv, List.getElem?_cons_succ] at ha
      rw [hmod] at hb
      rw [if_neg (by rw [List.length_map]; omega), List.length_map]
      exact ih (j - inner.length) ha hb

/-- Claim C7: `build_reliability_matrix` has one row per annotator; every
row has one cell per `(shared item, discovered code)` pair; the flat column
index `j` addresses the pair `(shared_ids[j / K], sortedCodes[j % K])`
(item-major, code-minor, `K` the number of discovered codes, the codes in
lexicographically sorted order over exactly the discovered union); and the
cell for annotator `i` at column `j` is the missing marker whenever that
annotator never annotated or skipped that column's item — independently of
the annotator's other items — and otherwise is 1 or 0 according to
membership of the column's code in the annotator's mapped label set. -/
theorem C7_reliability_matrix
    (anns : List (String × List (String × Irr.Annotation)))
    (shared : List String) (level : String) (i j : ℕ) (pid : String) (code : Code)
    (hpid : shared[j / (Irr.sortedCodes anns shared level).length]? = some pid)
    (hcode : (Irr.sortedCodes anns shared level)[j %
        (Irr.sortedCodes anns shared level).length]? = some code) :
    (Irr.build_reliability_matrix anns shared level).length = anns.length ∧
      (∀ row ∈ Irr.build_reliability_matrix anns shared level,
        row.length = shared.length * (Irr.sortedCodes anns shared level).length) ∧
      List.Sorted (fun a b => a ≤ b) (Irr.sortedCodes anns shared level) ∧
      (∀ c : Code, c ∈ Irr.sortedCodes anns shared level ↔
        c ∈ Irr.discoveredCodes anns shared level) ∧
      ((Irr.build_reliability_matrix anns shared level)[i]?.bind (fun row => row[j]?)) =
        (anns[i]?.map (fun ann =>
          match assocFind? ann.2 pid with
          | none => Irr.Cell.nan
          | some a =>
            if a.skipped then Irr.Cell.nan
            else if code ∈ Irr.map_level (Irr.annStandards a).toFinset level then
              Irr.Cell.num 1
            else Irr.Cell.num 0)) := by
  refine ⟨?_, ?_, ?_, ?_, ?_⟩
  · rw [Irr.build_reliability_matrix]
    simp
  · intro row hrow
    rw [Irr.build_reliability_matrix] at hrow
    simp only [List.mem_map] at hrow
    obtain ⟨ann, _, hrw⟩ := hrow
    rw [← hrw, List.length_map, length_flatMap_map]
  · exact Finset.sort_sorted _ _
  · intro c
    exact Finset.mem_sort _
  · simp only [Irr.build_reliability_matrix]
    rw [List.getElem?_map]
    cases hi : anns[i]? with
    | none => rfl
    | some ann =>
      have hrow : ((shared.flatMap (fun pid => (Irr.sortedCodes anns shared level).map
          (fun code => (pid, code)))).map
            (fun item => Irr.cellAt ann.2 level item.1 item.2))[j]? =
          some (Irr.cellAt ann.2 level pid code) := by
        rw [List.getElem?_map,
          flatMap_map_getElem? shared (Irr.sortedCodes anns shared level)
            (fun pid code => (pid, code)) j pid code hpid hcode]
        rfl
      rw [Option.map_some', Option.some_bind, hrow, Option.map_some']
      rfl

/-- Witness for C7 on a one-annotator, one-item, one-code instance. -/
theorem C7_reliability_matrix_witness :
    ((Irr.build_reliability_matrix
        [("a1", [("p1", ⟨[Irr.StdEntry.raw (str "4.NF.B.3")], false⟩)])]
        ["p1"] "standard")[0]?.bind (fun row => row[0]?)) =
      (([("a1", [("p1",
          (⟨[Irr.StdEntry.raw (str "4.NF.B.3")], false⟩ : Irr.Annotation))])][0]?).map
        (fun ann =>
          match assocFind? ann.2 "p1" with
          | none => Irr.Cell.nan
          | some a =>
            if a.skipped then Irr.Cell.nan
            else if (str "4.NF.B.3") ∈
                Irr.map_level (Irr.annStandards a).toFinset "standard" then
              Irr.Cell.num 1
            else Irr.Cell.num 0)) := by
  have hdisc : Irr.discoveredCodes
      [("a1", [("p1", ⟨[Irr.StdEntry.raw (str "4.NF.B.3")], false⟩)])]
      ["p1"] "standard" = {str "4.NF.B.3"} := by decide
  have hsort : Irr.sortedCodes
      [("a1", [("p1", ⟨[Irr.StdEntry.raw (str "4.NF.B.3")], false⟩)])]
      ["p1"] "standard" = [str "4.NF.B.3"] := by
    rw [Irr.sortedCodes, hdisc, Finset.sort_singleton]
  exact (C7_reliability_matrix
    [("a1", [("p1", ⟨[Irr.StdEntry.raw (str "4.NF.B.3")], false⟩)])]
    ["p1"] "standard" 0 0 "p1" (str "4.NF.B.3")
    (by rw [hsort]; decide) (by rw [hsort]; decide)).2.2.2.2

/-! ### Hierarchy builder: grade-bucket derivation lemmas -/

theorem assocFind?_isSome_mem {κ α : Type} [DecidableEq κ] (m : List (κ × α)) (k : κ)
    (h : (assocFind? m k).isSome) : k ∈ m.map Prod.fst := by
  by_contra hn
  rw [(assocFind?_eq_none_iff m k).mpr hn] at h
  simp at h

theorem Annotate.gradeInfo_K (eid : Code) (h : (splitOnC '.' eid).headI = str "K") :
    Annotate.gradeInfo eid = (str "K", "Kindergarten", 0) := by
  have hc : (assocFind? Annotate.grade_names (str "K")).isSome = true ∨
      str "K" = str "K" := by decide
  simp only [Annotate.gradeInfo]
  rw [h, if_pos hc]
  decide

theorem Annotate.gradeInfo_digit (eid : Code) (i : ℕ) (h1 : 1 ≤ i) (h8 : i ≤ 8)
    (h : (splitOnC '.' eid).headI = str (toString i)) :
    Annotate.gradeInfo eid = (str (toString i), "Grade " ++ toString i, i) := by
  have hc : (assocFind? Annotate.grade_names (str (toString i))).isSome = true ∨
      str (toString i) = str "K" := by
    interval_cases i <;> decide
  simp only [Annotate.gradeInfo]
  rw [h, if_pos hc]
  interval_cases i <;> decide

theorem Annotate.gradeInfo_HS (eid : Code)
    (hg : (splitOnC '.' eid).headI ∉ Annotate.grade_names.map Prod.fst) :
    Annotate.gradeInfo eid =
      (str "HS-" ++ (splitOnC '-' eid).headI,
       "HS: " ++ (assocFind? Annotate.hs_cat_names ((splitOnC '-' eid).headI)).getD
         (String.mk ((splitOnC '-' eid).headI)),
       100 + (assocFind? Annotate.hs_order ((splitOnC '-' eid).headI)).getD 9) := by
  have hnone : assocFind? Annotate.grade_names ((splitOnC '.' eid).headI) = none :=
    (assocFind?_eq_none_iff _ _).mpr hg
  have hK : (splitOnC '.' eid).headI ≠ str "K" := by
    intro h
    apply hg
    rw [h]
    decide
  have hcond : ¬((assocFind? Annotate.grade_names ((splitOnC '.' eid).headI)).isSome ∨
      (splitOnC '.' eid).headI = str "K") := by
    simp [hnone, hK]
  simp only [Annotate.gradeInfo]
  rw [if_neg hcond]

theorem Annotate.gradeInfo_key_determines (e1 e2 : Code)
    (h : (Annotate.gradeInfo e1).1 = (Annotate.gradeInfo e2).1) :
    (Annotate.gradeInfo e1).2 = (Annotate.gradeInfo e2).2 := by
  have hkeys1 : ∀ c ∈ Annotate.grade_names.map Prod.fst, c.length = 1 := by decide
  by_cases c1 : (assocFind? Annotate.grade_names ((splitOnC '.' e1).headI)).isSome ∨
      (splitOnC '.' e1).headI = str "K" <;>
    by_cases c2 : (assocFind? Annotate.grade_names ((splitOnC '.' e2).headI)).isSome ∨
      (splitOnC '.' e2).headI = str "K"
  · simp only [Annotate.gradeInfo, if_pos c1, if_pos c2] at h ⊢
    rw [h]
  · have hlen1 : ((splitOnC '.' e1).headI).length = 1 := by
      rcases c1 with hs | hk
      · exact hkeys1 _ (assocFind?_isSome_mem _ _ hs)
      · rw [hk]; rfl
    simp only [Annotate.gradeInfo, if_pos c1, if_neg c2] at h
    rw [h, List.length_append] at hlen1
    simp [str] at hlen1
    omega
  · have hlen2 : ((splitOnC '.' e2).headI).length = 1 := by
      rcases c2 with hs | hk
      · exact hkeys1 _ (assocFind?_isSome_mem _ _ hs)
      · rw [hk]; rfl
    simp only [Annotate.gradeInfo, if_neg c1, if_pos c2] at h
    rw [← h, List.length_append] at hlen2
    simp [str] at hlen2
    omega
  · simp only [Annotate.gradeInfo, if_neg c1, if_neg c2] at h ⊢
    have hpre : (splitOnC '-' e1).headI = (splitOnC '-' e2).headI :=
      List.append_cancel_left h
    rw [hpre]

/-! ### Association-list set / update lemmas -/

theorem assocFind?_assocSet_self {κ α : Type} [DecidableEq κ]
    (m : List (κ × α)) (k : κ) (v : α) :
    assocFind? (assocSet m k v) k = some v := by
  induction m with
  | nil => simp [assocSet, assocFind?]
  | cons kv rest ih =>
    obtain ⟨k1, v1⟩ := kv
    by_cases h : k1 = k
    · simp [assocSet, h, assocFind?]
    · simp [assocSet, h, assocFind?, ih]

theorem assocFind?_assocSet_ne {κ α : Type} [DecidableEq κ]
    (m : List (κ × α)) (k : κ) (v : α) (k2 : κ) (h : k2 ≠ k) :
    assocFind? (assocSet m k v) k2 = assocFind? m k2 := by
  induction m with
  | nil =>
    have hkk : ¬(k = k2) := fun he => h he.symm
    simp [assocSet, assocFind?, hkk]
  | cons kv rest ih =>
    obtain ⟨k1, v1⟩ := kv
    by_cases h1 : k1 = k
    · have hkk : ¬(k = k2) := fun he => h he.symm
      simp [assocSet, assocFind?, h1, hkk]
    · simp [assocSet, assocFind?, h1, ih]

theorem assocFind?_assocSet_isSome {κ α : Type} [DecidableEq κ]
    (m : List (κ × α)) (k : κ) (v : α) (k2 : κ)
    (h : (assocFind? m k2).isSome) :
    (assocFind? (assocSet m k v) k2).isSome := by
  by_cases he : k2 = k
  · rw [he, assocFind?_assocSet_self]; rfl
  · rw [assocFind?_assocSet_ne m k v k2 he]; exact h

theorem assocFind?_assocUpdate_self {κ α : Type} [DecidableEq κ]
    (m : List (κ × α)) (k : κ) (f : α → α) :
    assocFind? (assocUpdate m k f) k = (assocFind? m k).map f := by
  induction m with
  | nil => rfl
  | cons kv rest ih =>
    obtain ⟨k1, v1⟩ := kv
    simp only [assocUpdate, List.map_cons]
    by_cases h : k1 = k
    · subst h
      rw [if_pos rfl]
      simp [assocFind?]
    · rw [if_neg h]
      simp only [assocFind?, if_neg h]
      exact ih

theorem assocFind?_assocUpdate_ne {κ α : Type} [DecidableEq κ]
    (m : List (κ × α)) (k : κ) (f : α → α) (k2 : κ) (h : k2 ≠ k) :
    assocFind? (assocUpdate m k f) k2 = assocFind? m k2 := by
  induction m with
  | nil => rfl
  | cons kv rest ih =>
    obtain ⟨k1, v1⟩ := kv
    simp only [assocUpdate, List.map_cons]
    by_cases h1 : k1 = k
    · subst h1
      rw [if_pos rfl]
      have h12 : ¬(k1 = k2) := fun he => h he.symm
      simp only [assocFind?, if_neg h12]
      exact ih
    · rw [if_neg h1]
      by_cases h2 : k1 = k2
      · simp [assocFind?, h2]
      · simp only [assocFind?, if_neg h2]
        exact ih

/-! ### Hierarchy builder: bucketing invariants -/

theorem Annotate.hierStep_preserves_bucket (entries : List (Code × Annotate.Entry))
    (h : List (Code × Annotate.GradeBucket)) (x : Code × Annotate.Entry)
    (K eid0 : Code)
    (hp : ∃ b, assocFind? h K = some b ∧ (assocFind? b.domains eid0).isSome) :
    ∃ b, assocFind? (Annotate.hierStep entries h x) K = some b ∧
      (assocFind? b.domains eid0).isSome := by
  obtain ⟨b, hb, hd⟩ := hp
  simp only [Annotate.hierStep]
  by_cases hl : x.2.level = "Domain"
  · rw [if_pos hl]
    by_cases hk : (Annotate.gradeInfo x.1).1 = K
    · rw [hk]
      have hsome : (assocFind? h K).isSome = true := by rw [hb]; rfl
      rw [if_pos hsome, assocFind?_assocUpdate_self, hb]
      exact ⟨_, rfl, assocFind?_assocSet_isSome _ _ _ _ hd⟩
    · by_cases hcond : (assocFind? h (Annotate.gradeInfo x.1).1).isSome = true
      · rw [if_pos hcond, assocFind?_assocUpdate_ne _ _ _ K (fun q => hk q.symm), hb]
        exact ⟨b, rfl, hd⟩
      · rw [if_neg hcond, assocFind?_assocUpdate_ne _ _ _ K (fun q => hk q.symm),
          assocFind?_assocSet_ne _ _ _ K (fun q => hk q.symm), hb]
        exact ⟨b, rfl, hd⟩
  · rw [if_neg hl]
    exact ⟨b, hb, hd⟩

theorem Annotate.hierStep_establishes (entries : List (Code × Annotate.Entry))
    (h : List (Code × Annotate.GradeBucket)) (eid : Code) (ent : Annotate.Entry)
    (hl : ent.level = "Domain") :
    ∃ b, assocFind? (Annotate.hierStep entries h (eid, ent)) (Annotate.gradeInfo eid).1 =
        some b ∧ (assocFind? b.domains eid).isSome := by
  simp only [Annotate.hierStep]
  rw [if_pos hl]
  by_cases hcond : (assocFind? h (Annotate.gradeInfo eid).1).isSome = true
  · rw [if_pos hcond, assocFind?_assocUpdate_self]
    obtain ⟨b, hb⟩ := Option.isSome_iff_exists.mp hcond
    rw [hb]
    exact ⟨_, rfl, by rw [assocFind?_assocSet_self]; rfl⟩
  · rw [if_neg hcond, assocFind?_assocUpdate_self, assocFind?_assocSet_self]
    exact ⟨_, rfl, by rw [assocFind?_assocSet_self]; rfl⟩

theorem Annotate.hierStep_preserves_names (entries : List (Code × Annotate.Entry))
    (h : List (Code × Annotate.GradeBucket)) (x : Code × Annotate.Entry)
    (hinv : ∀ K b, assocFind? h K = some b → ∀ e, (Annotate.gradeInfo e).1 = K →
      b.name = (Annotate.gradeInfo e).2.1 ∧ b.sort_key = (Annotate.gradeInfo e).2.2) :
    ∀ K b, assocFind? (Annotate.hierStep entries h x) K = some b →
      ∀ e, (Annotate.gradeInfo e).1 = K →
        b.name = (Annotate.gradeInfo e).2.1 ∧ b.sort_key = (Annotate.gradeInfo e).2.2 := by
  intro K b hb e he
  simp only [Annotate.hierStep] at hb
  by_cases hl : x.2.level = "Domain"
  · rw [if_pos hl] at hb
    by_cases hk : (Annotate.gradeInfo x.1).1 = K
    · rw [hk] at hb
      by_cases hcond : (assocFind? h K).isSome = true
      · rw [if_pos hcond, assocFind?_assocUpdate_self] at hb
        obtain ⟨b0, hb0⟩ := Option.isSome_iff_exists.mp hcond
        rw [hb0, Option.map_some'] at hb
        have hbe := (Option.some.inj hb).symm
        have h0 := hinv K b0 hb0 e he
        rw [hbe]
        exact h0
      · rw [if_neg hcond, assocFind?_assocUpdate_self, assocFind?_assocSet_self,
          Option.map_some'] at hb
        have hbe := (Option.some.inj hb).symm
        have hdet := Annotate.gradeInfo_key_determines x.1 e (hk.trans he.symm)
        rw [hbe]
        constructor
        · show (Annotate.gradeInfo x.1).2.1 = (Annotate.gradeInfo e).2.1
          rw [hdet]
        · show (Annotate.gradeInfo x.1).2.2 = (Annotate.gradeInfo e).2.2
          rw [hdet]
    · by_cases hcond : (assocFind? h (Annotate.gradeInfo x.1).1).isSome = true
      · rw [if_pos hcond, assocFind?_assocUpdate_ne _ _ _ K (fun q => hk q.symm)] at hb
        exact hinv K b hb e he
      · rw [if_neg hcond, assocFind?_assocUpdate_ne _ _ _ K (fun q => hk q.symm),
          assocFind?_assocSet_ne _ _ _ K (fun q => hk q.symm)] at hb
        exact hinv K b hb e he
  · rw [if_neg hl] at hb
    exact hinv K b hb e he

theorem Annotate.foldl_preserves_bucket (entries : List (Code × Annotate.Entry))
    (K eid0 : Code) :
    ∀ (l : List (Code × Annotate.Entry)) (h : List (Code × Annotate.GradeBucket)),
      (∃ b, assocFind? h K = some b ∧ (assocFind? b.domains eid0).isSome) →
      ∃ b, assocFind? (l.foldl (Annotate.hierStep entries) h) K = some b ∧
        (assocFind? b.domains eid0).isSome := by
  intro l
  induction l with
  | nil => intro h hp; exact hp
  | cons x xs ih =>
    intro h hp
    rw [List.foldl_cons]
    exact ih _ (Annotate.hierStep_preserves_bucket entries h x K eid0 hp)

theorem Annotate.foldl_preserves_names (entries : List (Code × Annotate.Entry)) :
    ∀ (l : List (Code × Annotate.Entry)) (h : List (Code × Annotate.GradeBucket)),
      (∀ K b, assocFind? h K = some b → ∀ e, (Annotate.gradeInfo e).1 = K →
        b.name = (Annotate.gradeInfo e).2.1 ∧ b.sort_key = (Annotate.gradeInfo e).2.2) →
      ∀ K b, assocFind? (l.foldl (Annotate.hierStep entries) h) K = some b →
        ∀ e, (Annotate.gradeInfo e).1 = K →
          b.name = (Annotate.gradeInfo e).2.1 ∧ b.sort_key = (Annotate.gradeInfo e).2.2 := by
  intro l
  induction l with
  | nil => intro h hinv; exact hinv
  | cons x xs ih =>
    intro h hinv
    rw [List.foldl_cons]
    exact ih _ (Annotate.hierStep_preserves_names entries h x hinv)

theorem Annotate.foldl_establishes (entries : List (Code × Annotate.Entry))
    (eid : Code) (ent : Annotate.Entry) (hl : ent.level = "Domain") :
    ∀ (l : List (Code × Annotate.Entry)) (h : List (Code × Annotate.GradeBucket)),
      (eid, ent) ∈ l →
      ∃ b, assocFind? (l.foldl (Annotate.hierStep entries) h)
          (Annotate.gradeInfo eid).1 = some b ∧ (assocFind? b.domains eid).isSome := by
  intro l
  induction l with
  | nil => intro h hmem; simp at hmem
  | cons x xs ih =>
    intro h hmem
    rw [List.foldl_cons]
    rcases List.mem_cons.mp hmem with he | he
    · subst he
      exact Annotate.foldl_preserves_bucket entries (Annotate.gradeInfo eid).1 eid xs _
        (Annotate.hierStep_establishes entries h eid ent hl)
    · exact ih _ he

/-- Every Domain entry of the store ends up in the hierarchy, in the bucket
keyed by its derived grade key, which carries the derived display name and
sort key. -/
theorem Annotate.hierarchy_bucketed (store : List (Code × Annotate.Entry))
    (eid : Code) (ent : Annotate.Entry) (hmem : (eid, ent) ∈ store)
    (hl : ent.level = "Domain") :
    ∃ b, assocFind? (Annotate.load_standards_hierarchy store)
        (Annotate.gradeInfo eid).1 = some b ∧
      b.name = (Annotate.gradeInfo eid).2.1 ∧
      b.sort_key = (Annotate.gradeInfo eid).2.2 ∧
      (assocFind? b.domains eid).isSome := by
  obtain ⟨b, hb, hd⟩ :=
    Annotate.foldl_establishes store eid ent hl store [] hmem
  have hnames := Annotate.foldl_preserves_names store store []
    (by intro K b2 hb2 e he; simp [assocFind?] at hb2)
    (Annotate.gradeInfo eid).1 b hb eid rfl
  exact ⟨b, hb, hnames.1, hnames.2, hd⟩

/-- Claim C8: the grade-bucket derivation of the hierarchy builder: a
leading dot-segment `"K"` buckets under key `"K"` with sort key 0; a
leading dot-segment `"1"`..`"8"` buckets under that literal with the
integer sort key; otherwise the segment before `"-"` is the HS subject
letter, the key is `"HS-"+letter`, the name comes from the fixed
letter→subject table and the sort key is 100 plus the fixed ordinal
(N=0, A=1, F=2, G=3, S=4); Domain `"4.NF"` yields a hierarchy with grade
key `"4"`, sort key 4, one domain, one cluster, one standard and no
sub-standards; Domain `"A-APR"` buckets under `"HS-A"` with display name
`"HS: Algebra"` (containing `"Algebra"`) and sort key 101. -/
theorem C8_grade_buckets :
    (∀ eid : Code, (splitOnC '.' eid).headI = str "K" →
      Annotate.gradeInfo eid = (str "K", "Kindergarten", 0)) ∧
    (∀ (eid : Code) (i : ℕ), 1 ≤ i → i ≤ 8 →
      (splitOnC '.' eid).headI = str (toString i) →
      Annotate.gradeInfo eid = (str (toString i), "Grade " ++ toString i, i)) ∧
    (∀ (eid : Code) (name : String) (ord : ℕ),
      (splitOnC '.' eid).headI ∉ Annotate.grade_names.map Prod.fst →
      assocFind? Annotate.hs_cat_names ((splitOnC '-' eid).headI) = some name →
      assocFind? Annotate.hs_order ((splitOnC '-' eid).headI) = some ord →
      Annotate.gradeInfo eid =
        (str "HS-" ++ (splitOnC '-' eid).headI, "HS: " ++ name, 100 + ord)) ∧
    (assocFind? Annotate.hs_order (str "N") = some 0 ∧
      assocFind? Annotate.hs_order (str "A") = some 1 ∧
      assocFind? Annotate.hs_order (str "F") = some 2 ∧
      assocFind? Annotate.hs_order (str "G") = some 3 ∧
      assocFind? Annotate.hs_order (str "S") = some 4) ∧
    (Annotate.load_standards_hierarchy
        [(str "4.NF", ⟨"Domain", "dNF", [str "4.NF.B"], ""⟩),
         (str "4.NF.B", ⟨"Cluster", "dB", [str "4.NF.B.3"], "major cluster"⟩),
         (str "4.NF.B.3", ⟨"Standard", "d3", [], ""⟩)] =
      [(str "4", ⟨"Grade 4", 4,
         [(str "4.NF", ⟨str "4.NF", "dNF",
            [(str "4.NF.B", ⟨str "4.NF.B", "dB", "major cluster",
               [(str "4.NF.B.3", ⟨str "4.NF.B.3", "d3", []⟩)]⟩)]⟩)]⟩)]) ∧
    (Annotate.load_standards_hierarchy [(str "A-APR", ⟨"Domain", "dA", [], ""⟩)] =
        [(str "HS-A", ⟨"HS: Algebra", 101, [(str "A-APR", ⟨str "A-APR", "dA", []⟩)]⟩)] ∧
      List.IsInfix (str "Algebra") (String.toList "HS: Algebra")) := by
  refine ⟨Annotate.gradeInfo_K, Annotate.gradeInfo_digit, ?_, by decide, by decide,
    by decide, str "HS: ", [], by decide⟩
  intro eid name ord hg hname hord
  rw [Annotate.gradeInfo_HS eid hg, hname, hord]
  simp

/-- Witness for C8 at the concrete codes `"K.CC"`, `"4.NF"`, `"A-APR"`. -/
theorem C8_grade_buckets_witness :
    Annotate.gradeInfo (str "K.CC") = (str "K", "Kindergarten", 0) ∧
      Annotate.gradeInfo (str "4.NF") = (str (toString 4), "Grade " ++ toString 4, 4) ∧
      Annotate.gradeInfo (str "A-APR") =
        (str "HS-" ++ (splitOnC '-' (str "A-APR")).headI, "HS: " ++ "Algebra", 100 + 1) :=
  ⟨C8_grade_buckets.1 (str "K.CC") (by decide),
   C8_grade_buckets.2.1 (str "4.NF") 4 (by norm_num) (by norm_num) (by decide),
   C8_grade_buckets.2.2.1 (str "A-APR") "Algebra" 1 (by decide) (by decide) (by decide)⟩

/-- Counterexample to claim C9 as stated: for the Domain code `"ZZ-TOP"`
(neither grade nor HS-letter prefix; raw prefix `"ZZ"`), the builder
buckets it under key `"HS-ZZ"` with label `"HS: ZZ"` — the bucket key and
label are not the raw prefix itself. -/
theorem C9_fallback_counterexample :
    Annotate.load_standards_hierarchy [(str "ZZ-TOP", ⟨"Domain", "dZ", [], ""⟩)] =
        [(str "HS-ZZ", ⟨"HS: ZZ", 109, [(str "ZZ-TOP", ⟨str "ZZ-TOP", "dZ", []⟩)]⟩)] ∧
      (splitOnC '-' (str "ZZ-TOP")).headI = str "ZZ" ∧
      str "HS-ZZ" ≠ str "ZZ" ∧ ("HS: ZZ" : String) ≠ "ZZ" := by decide

/-- Claim C9, amended: a Domain entry whose code has neither a recognized
grade prefix nor a recognized HS-letter prefix is still bucketed (not
dropped, no error), in the bucket keyed by `"HS-" + rawPrefix` with label
`"HS: " + rawPrefix` and sort key `100 + 9` (the raw prefix before the
first dash is embedded in both the key and the label via the HS fallback
path, rather than being used verbatim). -/
theorem C9_fallback_amended (store : List (Code × Annotate.Entry))
    (eid : Code) (ent : Annotate.Entry) (hmem : (eid, ent) ∈ store)
    (hl : ent.level = "Domain")
    (hg : (splitOnC '.' eid).headI ∉ Annotate.grade_names.map Prod.fst)
    (hcat : assocFind? Annotate.hs_cat_names ((splitOnC '-' eid).headI) = none)
    (hord : assocFind? Annotate.hs_order ((splitOnC '-' eid).headI) = none) :
    ∃ b, assocFind? (Annotate.load_standards_hierarchy store)
        (str "HS-" ++ (splitOnC '-' eid).headI) = some b ∧
      b.name = "HS: " ++ String.mk ((splitOnC '-' eid).headI) ∧
      b.sort_key = 109 ∧
      (assocFind? b.domains eid).isSome := by
  have hinfo := Annotate.gradeInfo_HS eid hg
  rw [hcat, hord] at hinfo
  simp only [Option.getD_none] at hinfo
  obtain ⟨b, hb, hname, hsort, hdom⟩ :=
    Annotate.hierarchy_bucketed store eid ent hmem hl
  rw [hinfo] at hb hname hsort
  exact ⟨b, hb, hname, hsort, hdom⟩

/-- Witness for the amended C9 at the concrete store with Domain
`"ZZ-TOP"`. -/
theorem C9_fallback_witness :
    ∃ b, assocFind? (Annotate.load_standards_hierarchy
        [(str "ZZ-TOP", ⟨"Domain", "dZ", [], ""⟩)])
        (str "HS-" ++ (splitOnC '-' (str "ZZ-TOP")).headI) = some b ∧
      b.name = "HS: " ++ String.mk ((splitOnC '-' (str "ZZ-TOP")).headI) ∧
      b.sort_key = 109 ∧
      (assocFind? b.domains (str "ZZ-TOP")).isSome :=
  C9_fallback_amended [(str "ZZ-TOP", ⟨"Domain", "dZ", [], ""⟩)] (str "ZZ-TOP")
    ⟨"Domain", "dZ", [], ""⟩ (by simp) rfl (by decide) (by decide) (by decide)

end MathFish
